import Mathlib

/-!
Verification of the Draft Turn Engine of the triple-draft repository.

The engine lives in src/app/draft/[roomCode]/page.tsx:
  * getCoachIdForPick / getNextCoachIdForPick / roundAndPickInRound — the pure
    Draft Order Resolver (snake order with a 3rd-round reversal);
  * derived client state: draftedPlayerIds, myPicks, myTeamsUsed, availablePlayers;
  * draftPlayer — the pick submission path: client-side validation against the
    component's cached `picks` state, followed by an insert into the `picks` table;
  * undoLastPick — commissioner-only removal of the pick with the highest
    sequence number.

Machine numbers that the engine actually computes with (pick numbers, rounds,
lengths) are naturals; the informational `ppg` score (`number | null` in the
source, never consumed by engine logic) is modelled as `Option Int`; the
`created_at` timestamp (an ISO string ordered chronologically by the database)
is modelled as a natural number with the same order.
-/

namespace TripleDraft

/-- Room row: `type Room = { id, name, draft_order }`. -/
structure Room where
  id : String
  name : String
  draft_order : List String
deriving DecidableEq

/-- Coach row: `type Coach = { id, coach_name }`. -/
structure Coach where
  id : String
  coach_name : String
deriving DecidableEq

/-- Player row: `type Player = { id, room_id, player_name, nfl_team, position, ppg }`. -/
structure Player where
  id : String
  room_id : String
  player_name : String
  nfl_team : String
  position : String
  ppg : Option Int
deriving DecidableEq

/-- Joined player projection stored on a pick row: `type PickPlayer`. -/
structure PickPlayer where
  id : String
  player_name : String
  nfl_team : String
  position : String
  ppg : Option Int
deriving DecidableEq

/-- Joined coach projection stored on a pick row: `type PickCoach`. -/
structure PickCoach where
  id : String
  coach_name : String
deriving DecidableEq

/-- Pick row: `type PickRow`.  The `round` column is used by the code as the
OVERALL pick number (the source comment says so explicitly); `player` and
`coach` are the optional joined projections that `loadPicks` selects. -/
structure PickRow where
  id : String
  room_id : String
  coach_id : String
  round : Nat
  player_id : String
  created_at : Nat
  player : Option PickPlayer
  coach : Option PickCoach
deriving DecidableEq

/-!  The Draft Order Resolver.  `Math.ceil(p / n)` on positive integers is
`(p + n - 1) / n` in natural division; pick numbers are 1-based throughout the
code (every call site passes `picks.length + 1` or that plus one). -/

/-- `getCoachIdForPick(overallPickNumber, draftOrder)` from the source:
snake order where rounds 2 and 3 both reverse (3rd round reversal), round 4
is forward, and from round 5 on the odd rounds reverse.  Returns `null`
(here `none`) when the order is empty or the index falls out of range. -/
def getCoachIdForPick (overallPickNumber : Nat) (draftOrder : List String) : Option String :=
  let n := draftOrder.length
  if n = 0 then none
  else
    let roundNumber := (overallPickNumber + n - 1) / n
    let indexInRound0 := (overallPickNumber - 1) % n
    let isReverse := roundNumber = 2 ∨ roundNumber = 3 ∨ (5 ≤ roundNumber ∧ roundNumber % 2 = 1)
    let idx := if isReverse then n - 1 - indexInRound0 else indexInRound0
    draftOrder[idx]?

/-- `getNextCoachIdForPick(overallPickNumber, draftOrder)` from the source. -/
def getNextCoachIdForPick (overallPickNumber : Nat) (draftOrder : List String) : Option String :=
  getCoachIdForPick (overallPickNumber + 1) draftOrder

/-- `roundAndPickInRound(overallPickNumber, nCoaches)` from the source. -/
def roundAndPickInRound (overallPickNumber : Nat) (nCoaches : Nat) : Nat × Nat :=
  ((overallPickNumber + nCoaches - 1) / nCoaches, (overallPickNumber - 1) % nCoaches + 1)

/-- The round number assigned by the specification's formula `ceil(p / N)`. -/
def specRound (p n : Nat) : Nat := (p + n - 1) / n

/-- The slot index dictated by the specification's words: `indexInRound0 =
(p - 1) mod N`, direction reversed exactly when the round is 2 or 3 or
(at least 5 and odd), and `index = N - 1 - indexInRound0` when reversed. -/
def specIndex (p n : Nat) : Nat :=
  if specRound p n = 2 ∨ specRound p n = 3 ∨ (5 ≤ specRound p n ∧ specRound p n % 2 = 1) then
    n - 1 - (p - 1) % n
  else
    (p - 1) % n

/-- Modelled from the spec's words for `resolveParticipant`: fails when N = 0,
otherwise returns `order[index]` for the index computed by `specIndex`. -/
def resolveParticipantSpec (p : Nat) (order : List String) : Option String :=
  if order.length = 0 then none else order[specIndex p order.length]?

/-!  Derived client state. -/

/-- `draftedPlayerIds`: the set of `player_id`s of the loaded picks
(modelled as the underlying list; only membership is ever consumed). -/
def draftedPlayerIds (picks : List PickRow) : List String :=
  picks.map (·.player_id)

/-- The per-pick coach test inside `myPicks`:
`p.coach?.id ? p.coach.id === coach.id : p.coach_id === coach.id`
(JavaScript truthiness: a missing join or an empty-string id falls back to
the stored `coach_id` column). -/
def pickByCoach (c : Coach) (p : PickRow) : Bool :=
  match p.coach with
  | some pc => if pc.id ≠ "" then pc.id == c.id else p.coach_id == c.id
  | none => p.coach_id == c.id

/-- `myPicks`: the loaded picks belonging to this coach, sorted ascending by
the `round` column (`sort((a, b) => a.round - b.round)` — a stable sort by
round, modelled by insertion sort). -/
def myPicks (c : Coach) (picks : List PickRow) : List PickRow :=
  (picks.filter (pickByCoach c)).insertionSort (fun a b => a.round ≤ b.round)

/-- `myTeamsUsed`: `new Set(myPicks.map(p => p.player?.nfl_team).filter(Boolean))`
— the affiliations of this coach's picks; a missing join or an empty-string
team name is dropped by the `Boolean` filter. -/
def myTeamsUsed (c : Coach) (picks : List PickRow) : List String :=
  (myPicks c picks).filterMap fun p =>
    match p.player with
    | some pl => if pl.nfl_team ≠ "" then some pl.nfl_team else none
    | none => none

/-- Decidable substring test on character lists, used to model JavaScript's
`String.prototype.includes`. -/
def subSeq (q : List Char) : List Char → Bool
  | [] => q.isEmpty
  | c :: tail => q.isPrefixOf (c :: tail) || subSeq q tail

/-- `s.includes(q)` on strings. -/
def strIncludes (s q : String) : Bool := subSeq q.data s.data

/-- `toLowerCase()`, modelled character by character. -/
def lowerStr (s : String) : String := String.mk (s.data.map Char.toLower)

/-- `trim()`: strip leading and trailing whitespace. -/
def trimStr (s : String) : String :=
  String.mk (((s.data.dropWhile Char.isWhitespace).reverse.dropWhile Char.isWhitespace).reverse)

/-- `availablePlayers`: the player pool with kickers and defenses removed,
already-drafted players removed, then the position filter and the free-text
search applied. -/
def availablePlayers (players : List Player) (picks : List PickRow)
    (search posFilter : String) : List Player :=
  let q := lowerStr (trimStr search)
  ((((players.filter fun p => !(["K", "DST"].contains p.position)).filter
      fun p => !((draftedPlayerIds picks).contains p.id)).filter
      fun p => posFilter == "ALL" || p.position == posFilter).filter
      fun p =>
        if q == "" then true
        else
          strIncludes (lowerStr p.player_name) q ||
          strIncludes (lowerStr p.nfl_team) q ||
          strIncludes (lowerStr p.position) q)

/-!  The pick submission path.  `draftPlayer` reads ONLY the component's
cached state (`picks`, and `myTeamsUsed` / `draftedPlayerIds` derived from
it); the only server interaction is the final unconditional insert.  The
database generates the row's primary key and timestamp; they appear here as
the `pid` and `ts` parameters.  The `player` / `coach` projections of the
new row are the joins `loadPicks` will return for it, determined by the
immutable `players` / `coaches` tables. -/

/-- Typed result of the submission path (the source reports each failing
check with a distinct alert and returns without inserting). -/
inductive DraftResult where
  | invalidConfiguration
  | outOfTurn
  | teamConflict
  | alreadyDrafted
  | ok (pick : PickRow)
deriving DecidableEq

/-- The row `draftPlayer` inserts, with the joined projections it will be
loaded with: `{ room_id, coach_id, round: cachedLen + 1, player_id }`. -/
def mkPick (room : Room) (c : Coach) (cachedLen : Nat) (pl : Player)
    (pid : String) (ts : Nat) : PickRow :=
  ⟨pid, room.id, c.id, cachedLen + 1, pl.id, ts,
    some ⟨pl.id, pl.player_name, pl.nfl_team, pl.position, pl.ppg⟩,
    some ⟨c.id, c.coach_name⟩⟩

/-- `draftPlayer(player)` from the source, with its checks in source order:
empty draft order, then the turn check `expected !== coach.id` against the
CACHED pick count, then the one-NFL-team rule, then the duplicate-player
rule; on success it inserts the row with `round = picks.length + 1`. -/
def draftPlayer (room : Room) (c : Coach) (picks : List PickRow) (pl : Player)
    (pid : String) (ts : Nat) : DraftResult :=
  if room.draft_order.length = 0 then .invalidConfiguration
  else if getCoachIdForPick (picks.length + 1) room.draft_order ≠ some c.id then .outOfTurn
  else if pl.nfl_team ∈ myTeamsUsed c picks then .teamConflict
  else if pl.id ∈ draftedPlayerIds picks then .alreadyDrafted
  else .ok (mkPick room c picks.length pl pid ts)

/-- The full submit path seen from the database: validation runs on the
caller's cached `clientPicks`, and on success the insert appends to the
server ledger (the repository contains no server-side re-validation and no
constraint on the inserted row). -/
def submitPick (room : Room) (c : Coach) (clientPicks serverLedger : List PickRow)
    (pl : Player) (pid : String) (ts : Nat) : DraftResult × List PickRow :=
  match draftPlayer room c clientPicks pl pid ts with
  | .ok pk => (.ok pk, serverLedger ++ [pk])
  | r => (r, serverLedger)

/-!  Undo. -/

/-- Typed result of `undoLastPick`. -/
inductive UndoResult where
  | forbidden
  | emptyLedger
  | ok (removed : PickRow) (rest : List PickRow)
deriving DecidableEq

/-- `isCommissioner`: `coach?.coach_name === "Rowland"` in the source. -/
def isCommissioner (c : Coach) : Bool := c.coach_name == "Rowland"

/-- One comparison step of the database's
`order round desc, created_at desc, limit 1` query: keep the row that sorts
first, i.e. the later one under the lexicographic (round, created_at) order. -/
def betterPick (a b : PickRow) : PickRow :=
  if b.round > a.round ∨ (b.round = a.round ∧ b.created_at > a.created_at) then b else a

/-- The row the undo query selects: the pick that is maximal in the
lexicographic (round, created_at) order, `none` on an empty ledger. -/
def latestPick : List PickRow → Option PickRow
  | [] => none
  | p :: ps => some (ps.foldl betterPick p)

/-- `undoLastPick` from the source: commissioner gate first, then the
empty-ledger report, otherwise delete the selected row by its primary key
(the browser `confirm` dialog, a pure UI gate before any check, is not part
of the engine). -/
def undoLastPick (c : Coach) (L : List PickRow) : UndoResult :=
  if !isCommissioner c then .forbidden
  else
    match latestPick L with
    | none => .emptyLedger
    | some p => .ok p (L.filter fun q => !(q.id == p.id))

/-- The ledger as it stands after an undo attempt: unchanged unless the
delete went through. -/
def ledgerAfterUndo (c : Coach) (L : List PickRow) : List PickRow :=
  match undoLastPick c L with
  | .ok _ rest => rest
  | _ => L

/-!  Reachable ledger states.  A successful `append` in the claims'
"sequence of successful operations" sense is a `draftPlayer` call whose
client snapshot coincides with the ledger it commits into (operations run
one after the other, each seeing the previous result); the database
guarantees the generated primary key `pid` is fresh. -/

/-- Ledger states reachable from the empty ledger by successful
`draftPlayer` appends and successful `undoLastPick` deletions. -/
inductive Reachable (room : Room) : List PickRow → Prop where
  | nil : Reachable room []
  | append (L : List PickRow) (c : Coach) (pl : Player) (pid : String) (ts : Nat)
      (pk : PickRow) : Reachable room L → pid ∉ L.map (·.id) →
      draftPlayer room c L pl pid ts = .ok pk → Reachable room (L ++ [pk])
  | undo (L rest : List PickRow) (c : Coach) (pk : PickRow) :
      Reachable room L → undoLastPick c L = .ok pk rest → Reachable room rest

/-!  The ledger well-formedness invariant maintained by the two mutating
operations: sequence numbers are exactly 1..length in order, primary keys
and candidate ids are unique, every row carries its join projections
consistently, and no coach holds two picks with the same nonempty
affiliation. -/

/-- Join projections agree with the stored foreign-key columns. -/
def JoinsOk (L : List PickRow) : Prop :=
  ∀ p ∈ L, (∃ pc, p.coach = some pc ∧ pc.id = p.coach_id) ∧
    (∃ pl, p.player = some pl ∧ pl.id = p.player_id)

/-- No coach holds two distinct picks whose candidates share a nonempty
external-team affiliation. -/
def TeamsOk (L : List PickRow) : Prop :=
  ∀ p ∈ L, ∀ q ∈ L, p ≠ q → p.coach_id = q.coach_id →
    ∀ tp tq, p.player = some tp → q.player = some tq →
      tp.nfl_team = tq.nfl_team → tp.nfl_team = ""

/-- The combined ledger invariant. -/
def Inv (L : List PickRow) : Prop :=
  L.map (·.round) = List.range' 1 L.length ∧
  (L.map (·.id)).Nodup ∧
  (L.map (·.player_id)).Nodup ∧
  JoinsOk L ∧ TeamsOk L

/-!  Concrete rooms, coaches and players used by witnesses and
counterexamples. -/

/-- A one-coach room. -/
def roomSolo : Room := ⟨"rS", "Solo Room", ["cz"]⟩

/-- The single coach of `roomSolo` (not the commissioner). -/
def coachZed : Coach := ⟨"cz", "Zed"⟩

/-- The commissioner (the privileged coach name in the source is a literal). -/
def coachRowland : Coach := ⟨"cr", "Rowland"⟩

/-- A candidate with a nonempty affiliation. -/
def playerSam : Player := ⟨"s1", "rS", "Sam One", "DAL", "QB", none⟩

/-- The pick of `playerSam` by `coachZed` at sequence number 1. -/
def pickSam : PickRow := mkPick roomSolo coachZed 0 playerSam "idS1" 0

/-- A two-coach room. -/
def roomPair : Room := ⟨"rT", "Pair Room", ["c1", "c2"]⟩

/-- The first coach of `roomPair`. -/
def coachAlice : Coach := ⟨"c1", "Alice"⟩

/-- A candidate in `roomPair`. -/
def playerTom : Player := ⟨"t1", "rT", "Tom One", "DAL", "QB", none⟩

/-- A second candidate in `roomPair`, with a different id and affiliation. -/
def playerTim : Player := ⟨"t2", "rT", "Tim Two", "PHI", "RB", none⟩

/-- `playerTom` picked by `coachAlice` against a cached length of 0. -/
def pickTom : PickRow := mkPick roomPair coachAlice 0 playerTom "idT1" 0

/-- `playerTim` picked by `coachAlice` against a cached length of 0. -/
def pickTim : PickRow := mkPick roomPair coachAlice 0 playerTim "idT2" 1

/-- A one-coach room whose candidates carry an empty-string affiliation. -/
def roomBlank : Room := ⟨"rE", "Blank Team Room", ["cz"]⟩

/-- A candidate whose `nfl_team` is the empty string. -/
def playerEd : Player := ⟨"e1", "rE", "Eddie One", "", "QB", none⟩

/-- A second empty-affiliation candidate. -/
def playerEv : Player := ⟨"e2", "rE", "Evan Two", "", "RB", none⟩

/-- First pick in `roomBlank`. -/
def pickEd : PickRow := mkPick roomBlank coachZed 0 playerEd "idE1" 0

/-- Second pick in `roomBlank`, by the same coach. -/
def pickEv : PickRow := mkPick roomBlank coachZed 1 playerEv "idE2" 1

/-- A player for the pool-filter witness. -/
def playerWalt : Player := ⟨"w1", "rW", "Walt One", "DAL", "QB", none⟩

/-- The second coach of `roomPair`. -/
def coachBob : Coach := ⟨"c2", "Bob"⟩

/-- An undrafted candidate sharing `playerSam`'s affiliation. -/
def playerSal : Player := ⟨"s2", "rS", "Sal Two", "DAL", "RB", none⟩

/-!  Inversion lemmas for the submission path. -/

theorem draftPlayer_ok_iff {room : Room} {c : Coach} {picks : List PickRow} {pl : Player}
    {pid : String} {ts : Nat} {pk : PickRow} :
    draftPlayer room c picks pl pid ts = .ok pk ↔
      room.draft_order.length ≠ 0 ∧
      getCoachIdForPick (picks.length + 1) room.draft_order = some c.id ∧
      pl.nfl_team ∉ myTeamsUsed c picks ∧
      pl.id ∉ draftedPlayerIds picks ∧
      pk = mkPick room c picks.length pl pid ts := by
  unfold draftPlayer
  split_ifs with h1 h2 h3 h4 <;> simp_all [eq_comm]

theorem draftPlayer_outOfTurn_iff {room : Room} {c : Coach} {picks : List PickRow} {pl : Player}
    {pid : String} {ts : Nat} :
    draftPlayer room c picks pl pid ts = .outOfTurn ↔
      room.draft_order.length ≠ 0 ∧
      getCoachIdForPick (picks.length + 1) room.draft_order ≠ some c.id := by
  unfold draftPlayer
  split_ifs <;> simp_all

theorem draftPlayer_teamConflict_iff {room : Room} {c : Coach} {picks : List PickRow} {pl : Player}
    {pid : String} {ts : Nat} :
    draftPlayer room c picks pl pid ts = .teamConflict ↔
      room.draft_order.length ≠ 0 ∧
      getCoachIdForPick (picks.length + 1) room.draft_order = some c.id ∧
      pl.nfl_team ∈ myTeamsUsed c picks := by
  unfold draftPlayer
  split_ifs <;> simp_all

theorem draftPlayer_alreadyDrafted_iff {room : Room} {c : Coach} {picks : List PickRow}
    {pl : Player} {pid : String} {ts : Nat} :
    draftPlayer room c picks pl pid ts = .alreadyDrafted ↔
      room.draft_order.length ≠ 0 ∧
      getCoachIdForPick (picks.length + 1) room.draft_order = some c.id ∧
      pl.nfl_team ∉ myTeamsUsed c picks ∧
      pl.id ∈ draftedPlayerIds picks := by
  unfold draftPlayer
  split_ifs <;> simp_all

theorem draftPlayer_invalidConfiguration_iff {room : Room} {c : Coach} {picks : List PickRow}
    {pl : Player} {pid : String} {ts : Nat} :
    draftPlayer room c picks pl pid ts = .invalidConfiguration ↔
      room.draft_order.length = 0 := by
  unfold draftPlayer
  split_ifs <;> simp_all


theorem mem_myTeamsUsed_iff {c : Coach} {picks : List PickRow} {t : String} :
    t ∈ myTeamsUsed c picks ↔
      ∃ p ∈ picks, pickByCoach c p = true ∧
        ∃ pl, p.player = some pl ∧ pl.nfl_team = t ∧ t ≠ "" := by
  unfold myTeamsUsed myPicks
  simp only [List.mem_filterMap, List.mem_insertionSort, List.mem_filter]
  constructor
  · rintro ⟨p, ⟨hp, hby⟩, hmap⟩
    refine ⟨p, hp, hby, ?_⟩
    cases hpl : p.player with
    | none => rw [hpl] at hmap; simp at hmap
    | some pl =>
      rw [hpl] at hmap
      by_cases hne : pl.nfl_team = ""
      · simp [hne] at hmap
      · simp [hne] at hmap
        exact ⟨pl, rfl, hmap, hmap ▸ hne⟩
  · rintro ⟨p, hp, hby, pl, hpl, hteam, hne⟩
    refine ⟨p, ⟨hp, hby⟩, ?_⟩
    rw [hpl]
    simp only [hteam]
    simp [hne]

theorem pickByCoach_of_join {c : Coach} {p : PickRow} {pc : PickCoach}
    (h : p.coach = some pc) (hid : pc.id = p.coach_id) (hc : p.coach_id = c.id) :
    pickByCoach c p = true := by
  simp only [pickByCoach, h]
  split_ifs <;> simp [hid, hc]


theorem betterPick_of_lt {a b : PickRow} (h : a.round < b.round) : betterPick a b = b := by
  unfold betterPick
  rw [if_pos]
  exact Or.inl h

theorem foldl_betterPick_getLastD (ps : List PickRow) :
    ∀ acc : PickRow, (∀ x ∈ ps, acc.round < x.round) →
      List.Pairwise (fun a b : PickRow => a.round < b.round) ps →
      ps.foldl betterPick acc = ps.getLastD acc := by
  induction ps with
  | nil => intro acc _ _; rfl
  | cons q ps' ih =>
    intro acc hacc hpw
    have hq : acc.round < q.round := hacc q (List.mem_cons_self q ps')
    rw [List.foldl_cons, betterPick_of_lt hq, List.getLastD_cons]
    exact ih q (List.pairwise_cons.mp hpw).1 (List.pairwise_cons.mp hpw).2

theorem latestPick_eq_getLast? {L : List PickRow}
    (h : List.Pairwise (fun a b : PickRow => a.round < b.round) L) :
    latestPick L = L.getLast? := by
  cases L with
  | nil => rfl
  | cons p ps =>
    show some (ps.foldl betterPick p) = (p :: ps).getLast?
    rw [foldl_betterPick_getLastD ps p (by
        intro x hx
        exact List.rel_of_pairwise_cons h hx) (List.pairwise_cons.mp h).2]
    simp [List.getLast?_cons]


theorem inv_nil : Inv [] := by
  refine ⟨rfl, List.nodup_nil, List.nodup_nil, ?_, ?_⟩ <;> intro p hp <;> simp at hp

theorem rounds_pairwise {L : List PickRow} (h : L.map (·.round) = List.range' 1 L.length) :
    List.Pairwise (fun a b : PickRow => a.round < b.round) L := by
  have h2 : List.Pairwise (· < ·) (L.map (·.round)) := by
    rw [h]; exact List.pairwise_lt_range' 1 L.length
  exact List.pairwise_map.mp h2

theorem teams_of_not_used {c : Coach} {L : List PickRow} {pl : Player}
    (hnot : pl.nfl_team ∉ myTeamsUsed c L) (hjoins : JoinsOk L) :
    ∀ q ∈ L, q.coach_id = c.id → ∀ tq, q.player = some tq →
      tq.nfl_team = pl.nfl_team → tq.nfl_team = "" := by
  intro q hq hcid tq htq hteam
  by_contra hne
  apply hnot
  rw [mem_myTeamsUsed_iff]
  obtain ⟨⟨pc, hpc, hpcid⟩, _⟩ := hjoins q hq
  exact ⟨q, hq, pickByCoach_of_join hpc hpcid hcid, tq, htq, hteam, hteam ▸ hne⟩

theorem inv_append {room : Room} {c : Coach} {L : List PickRow} {pl : Player}
    {pid : String} {ts : Nat} {pk : PickRow} (hInv : Inv L)
    (hfresh : pid ∉ L.map (·.id))
    (hok : draftPlayer room c L pl pid ts = .ok pk) : Inv (L ++ [pk]) := by
  obtain ⟨hrounds, hids, hpids, hjoins, hteams⟩ := hInv
  obtain ⟨-, -, hteam, hdup, hpk⟩ := draftPlayer_ok_iff.mp hok
  subst hpk
  refine ⟨?_, ?_, ?_, ?_, ?_⟩
  · rw [List.map_append, hrounds, List.length_append]
    show _ = List.range' 1 (L.length + 1)
    rw [List.range'_concat]
    simp only [List.map_cons, List.map_nil, List.append_cancel_left_eq]
    simp [mkPick, Nat.add_comm]
  · rw [List.map_append, List.nodup_append]
    exact ⟨hids, List.nodup_singleton _, by simpa [mkPick] using hfresh⟩
  · rw [List.map_append, List.nodup_append]
    refine ⟨hpids, List.nodup_singleton _, ?_⟩
    simpa [mkPick, draftedPlayerIds] using hdup
  · intro p hp
    rcases List.mem_append.mp hp with h | h
    · exact hjoins p h
    · rw [List.mem_singleton.mp h]
      exact ⟨⟨⟨c.id, c.coach_name⟩, rfl, rfl⟩, ⟨⟨pl.id, pl.player_name, pl.nfl_team, pl.position, pl.ppg⟩, rfl, rfl⟩⟩
  · intro p hp q hq hpq hcid tp tq htp htq hteq
    rcases List.mem_append.mp hp with h1 | h1 <;> rcases List.mem_append.mp hq with h2 | h2
    · exact hteams p h1 q h2 hpq hcid tp tq htp htq hteq
    · -- q is the new pick
      rw [List.mem_singleton.mp h2] at hcid htq
      have htq' : tq = ⟨pl.id, pl.player_name, pl.nfl_team, pl.position, pl.ppg⟩ := by
        have := htq
        simp only [mkPick] at this
        exact (Option.some_inj.mp this).symm
      have hcid' : p.coach_id = c.id := by simpa [mkPick] using hcid
      have := teams_of_not_used hteam hjoins p h1 hcid' tp htp (by rw [hteq, htq'])
      exact this
    · -- p is the new pick
      rw [List.mem_singleton.mp h1] at hcid htp
      have htp' : tp = ⟨pl.id, pl.player_name, pl.nfl_team, pl.position, pl.ppg⟩ := by
        have := htp
        simp only [mkPick] at this
        exact (Option.some_inj.mp this).symm
      have hcid' : q.coach_id = c.id := by
        rw [← hcid]; simp [mkPick]
      have := teams_of_not_used hteam hjoins q h2 hcid' tq htq (by rw [← hteq, htp'])
      rw [hteq]
      exact this
    · exact absurd (by rw [List.mem_singleton.mp h1, List.mem_singleton.mp h2]) hpq


theorem undo_ok_spec {c : Coach} {L rest : List PickRow} {pk : PickRow} (hInv : Inv L)
    (hok : undoLastPick c L = .ok pk rest) :
    isCommissioner c = true ∧ L ≠ [] ∧ L.getLast? = some pk ∧ rest = L.dropLast := by
  unfold undoLastPick at hok
  by_cases hcomm : isCommissioner c
  · rw [hcomm] at hok
    simp only [Bool.not_true, Bool.false_eq_true, if_false] at hok
    have hpw := rounds_pairwise hInv.1
    rw [latestPick_eq_getLast? hpw] at hok
    cases hlast : L.getLast? with
    | none => rw [hlast] at hok; simp at hok
    | some p =>
      rw [hlast] at hok
      simp only [UndoResult.ok.injEq] at hok
      obtain ⟨hpk, hrest⟩ := hok
      have hne : L ≠ [] := by
        intro h
        rw [h] at hlast
        simp at hlast
      refine ⟨hcomm, hne, by rw [hpk], ?_⟩
      have hgl : p = L.getLast hne := by
        have := List.getLast?_eq_getLast L hne
        rw [hlast] at this
        exact Option.some_inj.mp this
      have hL : L.dropLast ++ [p] = L := by
        rw [hgl]
        exact List.dropLast_concat_getLast hne
      have hnotmem : p.id ∉ L.dropLast.map (·.id) := by
        have hids := hInv.2.1
        rw [← hL, List.map_append, List.nodup_append] at hids
        intro hmem
        exact hids.2.2 hmem (by simp)
      rw [← hrest]
      conv_lhs => rw [← hL]
      rw [List.filter_append]
      have h1 : (L.dropLast.filter fun q => !(q.id == p.id)) = L.dropLast := by
        rw [List.filter_eq_self]
        intro q hq
        simp only [Bool.not_eq_eq_eq_not, Bool.not_true, beq_eq_false_iff_ne, ne_eq]
        intro hqid
        exact hnotmem (hqid ▸ List.mem_map_of_mem (·.id) hq)
      have h2 : ([p].filter fun q => !(q.id == p.id)) = [] := by simp
      rw [h1, h2, List.append_nil]
  · simp only [Bool.not_eq_true] at hcomm
    rw [hcomm] at hok
    simp at hok

theorem inv_dropLast {L : List PickRow} (hInv : Inv L) : Inv L.dropLast := by
  obtain ⟨hrounds, hids, hpids, hjoins, hteams⟩ := hInv
  have hsub : L.dropLast.Sublist L := List.dropLast_sublist L
  refine ⟨?_, ?_, ?_, ?_, ?_⟩
  · rw [List.map_dropLast, hrounds, List.length_dropLast]
    cases hn : L.length with
    | zero => simp
    | succ m =>
      rw [List.range'_concat]
      simp
  · exact ((hids.sublist (hsub.map (·.id))))
  · exact ((hpids.sublist (hsub.map (·.player_id))))
  · intro p hp
    exact hjoins p (hsub.subset hp)
  · intro p hp q hq hpq hcid tp tq htp htq hteq
    exact hteams p (hsub.subset hp) q (hsub.subset hq) hpq hcid tp tq htp htq hteq

theorem reachable_inv {room : Room} {L : List PickRow} (h : Reachable room L) : Inv L := by
  induction h with
  | nil => exact inv_nil
  | append L c pl pid ts pk _ hfresh hok ih => exact inv_append ih hfresh hok
  | undo L rest c pk _ hok ih =>
    obtain ⟨-, -, -, hrest⟩ := undo_ok_spec ih hok
    rw [hrest]
    exact inv_dropLast ih


theorem latestPick_of_inv {L : List PickRow} (hInv : Inv L) (hne : L ≠ []) :
    latestPick L = some (L.getLast hne) := by
  rw [latestPick_eq_getLast? (rounds_pairwise hInv.1), List.getLast?_eq_getLast L hne]

theorem filter_append_ne_id {A : List PickRow} {b : PickRow}
    (hnodup : ((A ++ [b]).map (·.id)).Nodup) :
    ((A ++ [b]).filter fun q => !(q.id == b.id)) = A := by
  rw [List.map_append, List.nodup_append] at hnodup
  have hnotmem : b.id ∉ A.map (·.id) := fun hmem => hnodup.2.2 hmem (by simp)
  rw [List.filter_append]
  have h1 : (A.filter fun q => !(q.id == b.id)) = A := by
    rw [List.filter_eq_self]
    intro q hq
    simp only [Bool.not_eq_eq_eq_not, Bool.not_true, beq_eq_false_iff_ne, ne_eq]
    intro hqid
    exact hnotmem (hqid ▸ List.mem_map_of_mem (·.id) hq)
  have h2 : ([b].filter fun q => !(q.id == b.id)) = [] := by simp
  rw [h1, h2, List.append_nil]

theorem filter_ne_getLast_id {L : List PickRow} (hids : (L.map (·.id)).Nodup) (hne : L ≠ []) :
    (L.filter fun q => !(q.id == (L.getLast hne).id)) = L.dropLast := by
  have hL : L.dropLast ++ [L.getLast hne] = L := List.dropLast_concat_getLast hne
  have key := @filter_append_ne_id (L.dropLast) (L.getLast hne) (by rw [hL]; exact hids)
  rw [hL] at key
  exact key

theorem undoLastPick_ok_of_inv {c : Coach} {L : List PickRow}
    (hcomm : isCommissioner c = true) (hInv : Inv L) (hne : L ≠ []) :
    undoLastPick c L = .ok (L.getLast hne) L.dropLast := by
  unfold undoLastPick
  rw [hcomm]
  simp only [Bool.not_true, Bool.false_eq_true, if_false]
  rw [latestPick_of_inv hInv hne]
  show UndoResult.ok (L.getLast hne) (L.filter fun q => !(q.id == (L.getLast hne).id)) =
    UndoResult.ok (L.getLast hne) L.dropLast
  rw [filter_ne_getLast_id hInv.2.1 hne]

theorem getLast_round_of_inv {L : List PickRow} (hInv : Inv L) (hne : L ≠ []) :
    (L.getLast hne).round = L.length := by
  have h := hInv.1
  have h1 : (L.map (·.round)).getLast? = some ((L.getLast hne).round) := by
    rw [List.getLast?_map, List.getLast?_eq_getLast L hne]
    rfl
  rw [h, List.getLast?_range'] at h1
  have hl : L.length ≠ 0 := by
    intro h0
    exact hne (List.length_eq_zero.mp h0)
  rw [if_neg hl] at h1
  have := Option.some_inj.mp h1
  omega

theorem round_le_of_inv {L : List PickRow} (hInv : Inv L) {q : PickRow} (hq : q ∈ L) :
    q.round ≤ L.length := by
  have h := hInv.1
  have : q.round ∈ L.map (·.round) := List.mem_map_of_mem (·.round) hq
  rw [h, List.mem_range'_1] at this
  omega

theorem reachable_pickSam : Reachable roomSolo [pickSam] := by
  have h : Reachable roomSolo ([] ++ [pickSam]) :=
    Reachable.append [] coachZed playerSam "idS1" 0 pickSam Reachable.nil (by decide) (by decide)
  simpa using h

theorem reachable_blankPair : Reachable roomBlank [pickEd, pickEv] := by
  have h1 : Reachable roomBlank ([] ++ [pickEd]) :=
    Reachable.append [] coachZed playerEd "idE1" 0 pickEd Reachable.nil (by decide) (by decide)
  have h2 : Reachable roomBlank ([pickEd] ++ [pickEv]) :=
    Reachable.append [pickEd] coachZed playerEv "idE2" 1 pickEv (by simpa using h1)
      (by decide) (by decide)
  simpa using h2


/-- Claim C1: for every draft order of length N ≥ 1 and pick number p ≥ 1,
the resolver returns `order[index]` for the index given by the spec formula
(round = ceil(p/N), indexInRound0 = (p-1) mod N, reversed exactly in rounds
2, 3 and the odd rounds from 5 on), the index is always in range, and the
worked N = 4 sequence over picks 1..20 is A,B,C,D / D,C,B,A / D,C,B,A /
A,B,C,D / D,C,B,A. -/
theorem c1_resolver_matches_spec :
    (∀ (order : List String) (p : Nat), 1 ≤ p →
      getCoachIdForPick p order = resolveParticipantSpec p order) ∧
    (∀ (order : List String) (p : Nat), 1 ≤ p → order.length ≠ 0 →
      specIndex p order.length < order.length) ∧
    ((List.range' 1 20).map (fun p => getCoachIdForPick p ["A", "B", "C", "D"]) =
      (["A", "B", "C", "D", "D", "C", "B", "A", "D", "C", "B", "A",
        "A", "B", "C", "D", "D", "C", "B", "A"]).map some) := by
  refine ⟨fun order p _ => rfl, fun order p _ h => ?_, by decide⟩
  have hpos : 0 < order.length := Nat.pos_of_ne_zero h
  have hlt : (p - 1) % order.length < order.length := Nat.mod_lt _ hpos
  unfold specIndex
  split_ifs <;> omega

/-- Witness for C1 at pick 5 of a four-coach order. -/
theorem c1_witness :
    getCoachIdForPick 5 ["A", "B", "C", "D"] = resolveParticipantSpec 5 ["A", "B", "C", "D"] ∧
    specIndex 5 (["A", "B", "C", "D"] : List String).length <
      (["A", "B", "C", "D"] : List String).length :=
  ⟨c1_resolver_matches_spec.1 ["A", "B", "C", "D"] 5 (by decide),
   c1_resolver_matches_spec.2.1 ["A", "B", "C", "D"] 5 (by decide) (by decide)⟩

/-- Claim C9: with an empty draft order the resolver fails (returns the
`null` failure value) for every pick number ≥ 1, and the submission path
reports the invalid-configuration error. -/
theorem c9_empty_order_fails :
    ∀ p : Nat, 1 ≤ p →
      getCoachIdForPick p [] = none ∧
      ∀ (room : Room) (c : Coach) (picks : List PickRow) (pl : Player)
        (pid : String) (ts : Nat), room.draft_order = [] →
        draftPlayer room c picks pl pid ts = .invalidConfiguration := by
  intro p _
  refine ⟨rfl, ?_⟩
  intro room c picks pl pid ts h
  rw [draftPlayer_invalidConfiguration_iff, h]
  rfl

/-- Witness for C9 at pick number 1. -/
theorem c9_witness :
    getCoachIdForPick 1 [] = none ∧
    draftPlayer ⟨"r0", "No Order Room", []⟩ coachZed [] playerSam "x" 0 = .invalidConfiguration :=
  ⟨(c9_empty_order_fails 1 (by decide)).1,
   (c9_empty_order_fails 1 (by decide)).2 ⟨"r0", "No Order Room", []⟩ coachZed [] playerSam "x" 0 rfl⟩

/-- Claim C4: in every ledger state reachable from the empty ledger by
successful appends and undos, the stored sequence numbers (the `round`
column) are duplicate-free and are exactly the numbers 1..length. -/
theorem c4_sequence_contiguity {room : Room} {L : List PickRow} (h : Reachable room L) :
    (L.map (·.round)).Nodup ∧ ∀ k : Nat, k ∈ L.map (·.round) ↔ 1 ≤ k ∧ k ≤ L.length := by
  have hr := (reachable_inv h).1
  constructor
  · rw [hr]
    exact List.nodup_range' 1 L.length
  · intro k
    rw [hr, List.mem_range'_1]
    omega

/-- Witness for C4 on the concrete reachable one-pick ledger. -/
theorem c4_witness :
    (([pickSam].map (·.round)).Nodup ∧
      ∀ k : Nat, k ∈ [pickSam].map (·.round) ↔ 1 ≤ k ∧ k ≤ [pickSam].length) :=
  c4_sequence_contiguity reachable_pickSam

/-- Claim C10: the derived available-players list never contains a kicker
("K"), a defense ("DST"), or a player whose id appears among the loaded
picks' player ids, for every player list, pick list, search string and
position filter. -/
theorem c10_available_pool_filtered :
    ∀ (players : List Player) (picks : List PickRow) (search posFilter : String)
      (p : Player), p ∈ availablePlayers players picks search posFilter →
      p.position ≠ "K" ∧ p.position ≠ "DST" ∧ p.id ∉ picks.map (·.player_id) := by
  intro players picks search posFilter p hp
  unfold availablePlayers at hp
  obtain ⟨h3, -⟩ := List.mem_filter.mp hp
  obtain ⟨h2, -⟩ := List.mem_filter.mp h3
  obtain ⟨h1, hf2⟩ := List.mem_filter.mp h2
  obtain ⟨-, hf1⟩ := List.mem_filter.mp h1
  simp at hf1 hf2
  exact ⟨hf1.1, hf1.2, by simpa [draftedPlayerIds] using hf2⟩

/-- Witness for C10 on a concrete one-player pool. -/
theorem c10_witness :
    playerWalt ∈ availablePlayers [playerWalt] [] "" "ALL" ∧
    playerWalt.position ≠ "K" ∧ playerWalt.position ≠ "DST" ∧
    playerWalt.id ∉ ([] : List PickRow).map (·.player_id) :=
  ⟨by decide, c10_available_pool_filtered [playerWalt] [] "" "ALL" playerWalt (by decide)⟩


/-- Claim C7: `undoLastPick` fails for every non-commissioner requester and
leaves the ledger unchanged; it reports the empty-ledger case for a
commissioner on an empty ledger; and on a nonempty reachable ledger a
commissioner's undo removes exactly the pick with the maximum sequence
number (the tail) and nothing else. -/
theorem c7_undo_discipline :
    (∀ (c : Coach) (L : List PickRow), isCommissioner c = false →
      undoLastPick c L = .forbidden ∧ ledgerAfterUndo c L = L) ∧
    (∀ c : Coach, isCommissioner c = true → undoLastPick c [] = .emptyLedger) ∧
    (∀ (room : Room) (c : Coach) (L : List PickRow), isCommissioner c = true →
      Reachable room L → ∀ hne : L ≠ [],
      undoLastPick c L = .ok (L.getLast hne) L.dropLast ∧
      ledgerAfterUndo c L = L.dropLast ∧
      (L.getLast hne).round = L.length ∧
      ∀ q ∈ L, q.round ≤ (L.getLast hne).round) := by
  refine ⟨?_, ?_, ?_⟩
  · intro c L h
    have hforb : undoLastPick c L = .forbidden := by
      unfold undoLastPick
      rw [h]
      rfl
    exact ⟨hforb, by unfold ledgerAfterUndo; rw [hforb]⟩
  · intro c h
    unfold undoLastPick
    rw [h]
    rfl
  · intro room c L hcomm hreach hne
    have hInv := reachable_inv hreach
    have hok := undoLastPick_ok_of_inv hcomm hInv hne
    refine ⟨hok, by unfold ledgerAfterUndo; rw [hok], getLast_round_of_inv hInv hne, ?_⟩
    intro q hq
    rw [getLast_round_of_inv hInv hne]
    exact round_le_of_inv hInv hq

/-- Witness for C7: a non-commissioner is refused, a commissioner sees the
empty-ledger report on an empty room and removes exactly the tail of the
concrete reachable one-pick ledger. -/
theorem c7_witness :
    (undoLastPick coachZed [pickSam] = .forbidden ∧ ledgerAfterUndo coachZed [pickSam] = [pickSam]) ∧
    undoLastPick coachRowland [] = .emptyLedger ∧
    undoLastPick coachRowland [pickSam] =
      .ok ([pickSam].getLast (by decide)) ([pickSam].dropLast) :=
  ⟨c7_undo_discipline.1 coachZed [pickSam] (by decide),
   c7_undo_discipline.2.1 coachRowland (by decide),
   (c7_undo_discipline.2.2 roomSolo coachRowland [pickSam] (by decide) reachable_pickSam
      (by decide)).1⟩

/-- Claim C2 counterexample: with the server ledger already holding one pick
of `roomPair` (so the authoritative on-clock coach is the second coach), a
submission by the first coach whose client cache is still empty is NOT
rejected with the out-of-turn error — it validates against the cached
length and commits, producing a second row. -/
theorem c2_counterexample :
    getCoachIdForPick ([pickTom].length + 1) roomPair.draft_order ≠ some coachAlice.id ∧
    (submitPick roomPair coachAlice [] [pickTom] playerTim "idT2" 1).1 ≠ .outOfTurn ∧
    (submitPick roomPair coachAlice [] [pickTom] playerTim "idT2" 1).1 = .ok pickTim ∧
    (submitPick roomPair coachAlice [] [pickTom] playerTim "idT2" 1).2 = [pickTom, pickTim] := by
  refine ⟨by decide, by decide, by decide, by decide⟩

/-- Claim C2 as amended: the submission path rejects with the out-of-turn
error exactly when the submitting coach differs from the resolver's answer
for the CALLER-CACHED length plus one; the commit performs no authoritative
re-validation against the server ledger. -/
theorem c2_turn_check_uses_cached_length :
    ∀ (room : Room) (c : Coach) (clientPicks serverLedger : List PickRow) (pl : Player)
      (pid : String) (ts : Nat), room.draft_order.length ≠ 0 →
      ((submitPick room c clientPicks serverLedger pl pid ts).1 = .outOfTurn ↔
        getCoachIdForPick (clientPicks.length + 1) room.draft_order ≠ some c.id) := by
  intro room c cp sl pl pid ts hlen
  constructor
  · intro hout
    have hdp : draftPlayer room c cp pl pid ts = .outOfTurn := by
      unfold submitPick at hout
      cases h : draftPlayer room c cp pl pid ts <;> rw [h] at hout <;> simp_all
    exact (draftPlayer_outOfTurn_iff.mp hdp).2
  · intro hne
    have hdp : draftPlayer room c cp pl pid ts = .outOfTurn :=
      draftPlayer_outOfTurn_iff.mpr ⟨hlen, hne⟩
    unfold submitPick
    rw [hdp]

/-- Witness for the amended C2: with a fresh cache the wrong coach is
rejected out of turn. -/
theorem c2_witness :
    (submitPick roomPair coachAlice [pickTom] [pickTom] playerTim "w" 2).1 = .outOfTurn :=
  (c2_turn_check_uses_cached_length roomPair coachAlice [pickTom] [pickTom] playerTim "w" 2
    (by decide)).mpr (by decide)

/-- Claim C3, evaluated at the failing race: two submissions by the same
on-clock coach for two distinct valid candidates, both validating against
the cached length 0 before either insert lands, BOTH commit; the resulting
ledger holds two picks with sequence number 1 — a duplicate — instead of
one success and one failure. -/
theorem c3_race_both_commit :
    submitPick roomPair coachAlice [] [] playerTom "idT1" 0 = (.ok pickTom, [pickTom]) ∧
    submitPick roomPair coachAlice [] [pickTom] playerTim "idT2" 1 =
      (.ok pickTim, [pickTom, pickTim]) ∧
    [pickTom, pickTim].map (·.round) = [1, 1] ∧
    ¬ ([pickTom, pickTim].map (·.round)).Nodup := by
  refine ⟨by decide, by decide, by decide, by decide⟩


/-- Claim C5 counterexample: on the reachable one-pick ledger, resubmitting
the already-drafted candidate is rejected with the team-conflict error (the
one-team rule is checked first), not with the already-drafted error the
claim names. -/
theorem c5_counterexample :
    Reachable roomSolo [pickSam] ∧
    playerSam.id ∈ draftedPlayerIds [pickSam] ∧
    draftPlayer roomSolo coachZed [pickSam] playerSam "idS2" 1 = .teamConflict ∧
    draftPlayer roomSolo coachZed [pickSam] playerSam "idS2" 1 ≠ .alreadyDrafted :=
  ⟨reachable_pickSam, by decide, by decide, by decide⟩

/-- Claim C5 as amended: candidate ids never repeat in a reachable ledger;
a submission of an already-drafted candidate never succeeds and leaves the
ledger unchanged, and (once the configuration and turn checks pass) it is
rejected with the already-drafted error exactly when the submitter does not
also trip the earlier one-team check, and with the team-conflict error
exactly when they do. -/
theorem c5_candidate_uniqueness {room : Room} {L : List PickRow} (h : Reachable room L) :
    (L.map (·.player_id)).Nodup ∧
    ∀ (c : Coach) (pl : Player) (pid : String) (ts : Nat),
      pl.id ∈ draftedPlayerIds L →
      (∀ pk, draftPlayer room c L pl pid ts ≠ .ok pk) ∧
      (submitPick room c L L pl pid ts).2 = L ∧
      (room.draft_order.length ≠ 0 →
        getCoachIdForPick (L.length + 1) room.draft_order = some c.id →
        (draftPlayer room c L pl pid ts = .alreadyDrafted ↔ pl.nfl_team ∉ myTeamsUsed c L) ∧
        (draftPlayer room c L pl pid ts = .teamConflict ↔ pl.nfl_team ∈ myTeamsUsed c L)) := by
  refine ⟨(reachable_inv h).2.2.1, ?_⟩
  intro c pl pid ts hdup
  have hnotok : ∀ pk, draftPlayer room c L pl pid ts ≠ .ok pk := by
    intro pk hok
    exact (draftPlayer_ok_iff.mp hok).2.2.2.1 hdup
  refine ⟨hnotok, ?_, ?_⟩
  · unfold submitPick
    cases hd : draftPlayer room c L pl pid ts with
    | ok pk => exact absurd hd (hnotok pk)
    | invalidConfiguration => rfl
    | outOfTurn => rfl
    | teamConflict => rfl
    | alreadyDrafted => rfl
  · intro hlen hturn
    constructor
    · rw [draftPlayer_alreadyDrafted_iff]
      constructor
      · rintro ⟨-, -, hnot, -⟩
        exact hnot
      · intro hnot
        exact ⟨hlen, hturn, hnot, hdup⟩
    · rw [draftPlayer_teamConflict_iff]
      constructor
      · rintro ⟨-, -, hmem⟩
        exact hmem
      · intro hmem
        exact ⟨hlen, hturn, hmem⟩

/-- Witness for the amended C5 on the concrete reachable one-pick ledger. -/
theorem c5_witness :
    (([pickSam].map (·.player_id)).Nodup) ∧
    (∀ pk, draftPlayer roomSolo coachZed [pickSam] playerSam "idS2" 1 ≠ .ok pk) ∧
    (submitPick roomSolo coachZed [pickSam] [pickSam] playerSam "idS2" 1).2 = [pickSam] :=
  ⟨(c5_candidate_uniqueness reachable_pickSam).1,
   ((c5_candidate_uniqueness reachable_pickSam).2 coachZed playerSam "idS2" 1 (by decide)).1,
   ((c5_candidate_uniqueness reachable_pickSam).2 coachZed playerSam "idS2" 1 (by decide)).2.1⟩

/-- Claim C6 counterexample: the reachable ledger of `roomBlank` holds two
distinct picks by the same coach whose candidates carry the same
external-team affiliation (the empty string), which the `Boolean` filter in
`myTeamsUsed` lets through. -/
theorem c6_counterexample :
    Reachable roomBlank [pickEd, pickEv] ∧
    pickEd ∈ [pickEd, pickEv] ∧ pickEv ∈ [pickEd, pickEv] ∧
    pickEd ≠ pickEv ∧ pickEd.coach_id = pickEv.coach_id ∧
    pickEd.player.map (·.nfl_team) = some "" ∧
    pickEv.player.map (·.nfl_team) = some "" :=
  ⟨reachable_blankPair, by decide, by decide, by decide, by decide, by decide, by decide⟩

/-- Claim C6 as amended: in every reachable ledger state no coach holds two
distinct picks whose candidates share a NONEMPTY affiliation; a submission
whose affiliation is among the submitter's used teams never succeeds,
leaves the ledger unchanged, and (once the configuration and turn checks
pass) is rejected with the team-conflict error. -/
theorem c6_team_constraint {room : Room} {L : List PickRow} (h : Reachable room L) :
    (∀ p ∈ L, ∀ q ∈ L, p ≠ q → p.coach_id = q.coach_id →
      ∀ tp tq, p.player = some tp → q.player = some tq →
        tp.nfl_team = tq.nfl_team → tp.nfl_team = "") ∧
    ∀ (c : Coach) (pl : Player) (pid : String) (ts : Nat),
      pl.nfl_team ∈ myTeamsUsed c L →
      (∀ pk, draftPlayer room c L pl pid ts ≠ .ok pk) ∧
      (submitPick room c L L pl pid ts).2 = L ∧
      (room.draft_order.length ≠ 0 →
        getCoachIdForPick (L.length + 1) room.draft_order = some c.id →
        draftPlayer room c L pl pid ts = .teamConflict) := by
  refine ⟨(reachable_inv h).2.2.2.2, ?_⟩
  intro c pl pid ts hmem
  have hnotok : ∀ pk, draftPlayer room c L pl pid ts ≠ .ok pk := by
    intro pk hok
    exact (draftPlayer_ok_iff.mp hok).2.2.1 hmem
  refine ⟨hnotok, ?_, ?_⟩
  · unfold submitPick
    cases hd : draftPlayer room c L pl pid ts with
    | ok pk => exact absurd hd (hnotok pk)
    | invalidConfiguration => rfl
    | outOfTurn => rfl
    | teamConflict => rfl
    | alreadyDrafted => rfl
  · intro hlen hturn
    exact draftPlayer_teamConflict_iff.mpr ⟨hlen, hturn, hmem⟩

/-- Witness for the amended C6 on the concrete reachable one-pick ledger:
a second DAL candidate is refused with the team-conflict error. -/
theorem c6_witness :
    (∀ pk, draftPlayer roomSolo coachZed [pickSam] playerSal "c6" 1 ≠ .ok pk) ∧
    (submitPick roomSolo coachZed [pickSam] [pickSam] playerSal "c6" 1).2 = [pickSam] ∧
    draftPlayer roomSolo coachZed [pickSam] playerSal "c6" 1 = .teamConflict :=
  ⟨((c6_team_constraint reachable_pickSam).2 coachZed playerSal "c6" 1 (by decide)).1,
   ((c6_team_constraint reachable_pickSam).2 coachZed playerSal "c6" 1 (by decide)).2.1,
   ((c6_team_constraint reachable_pickSam).2 coachZed playerSal "c6" 1 (by decide)).2.2
     (by decide) (by decide)⟩

/-- Claim C8 counterexample: an input tripping both the duplicate-candidate
condition and the team-conflict condition is rejected with the
team-conflict error, not the already-drafted error the claim's check order
dictates. -/
theorem c8_counterexample :
    playerSam.id ∈ draftedPlayerIds [pickSam] ∧
    playerSam.nfl_team ∈ myTeamsUsed coachZed [pickSam] ∧
    draftPlayer roomSolo coachZed [pickSam] playerSam "idS3" 2 = .teamConflict ∧
    draftPlayer roomSolo coachZed [pickSam] playerSam "idS3" 2 ≠ .alreadyDrafted :=
  ⟨by decide, by decide, by decide, by decide⟩

/-- Claim C8 as amended: the submission path validates in the order
invalid-configuration, out-of-turn, team-conflict, already-drafted, and
returns the first failing check's error; in particular when both the
duplicate-candidate and the team-conflict conditions hold the result is the
team-conflict error. -/
theorem c8_check_order :
    ∀ (room : Room) (c : Coach) (picks : List PickRow) (pl : Player)
      (pid : String) (ts : Nat),
      (room.draft_order.length = 0 →
        draftPlayer room c picks pl pid ts = .invalidConfiguration) ∧
      (room.draft_order.length ≠ 0 →
        getCoachIdForPick (picks.length + 1) room.draft_order ≠ some c.id →
        draftPlayer room c picks pl pid ts = .outOfTurn) ∧
      (room.draft_order.length ≠ 0 →
        getCoachIdForPick (picks.length + 1) room.draft_order = some c.id →
        pl.nfl_team ∈ myTeamsUsed c picks →
        draftPlayer room c picks pl pid ts = .teamConflict) ∧
      (room.draft_order.length ≠ 0 →
        getCoachIdForPick (picks.length + 1) room.draft_order = some c.id →
        pl.nfl_team ∉ myTeamsUsed c picks → pl.id ∈ draftedPlayerIds picks →
        draftPlayer room c picks pl pid ts = .alreadyDrafted) := by
  intro room c picks pl pid ts
  refine ⟨?_, ?_, ?_, ?_⟩
  · intro h
    exact draftPlayer_invalidConfiguration_iff.mpr h
  · intro h1 h2
    exact draftPlayer_outOfTurn_iff.mpr ⟨h1, h2⟩
  · intro h1 h2 h3
    exact draftPlayer_teamConflict_iff.mpr ⟨h1, h2, h3⟩
  · intro h1 h2 h3 h4
    exact draftPlayer_alreadyDrafted_iff.mpr ⟨h1, h2, h3, h4⟩

/-- Witness for the amended C8: one concrete input per check, each rejected
with the error its position in the order dictates. -/
theorem c8_witness :
    draftPlayer ⟨"r0", "No Order Room", []⟩ coachZed [] playerSam "a" 0 = .invalidConfiguration ∧
    draftPlayer roomPair coachAlice [pickTom] playerTim "b" 1 = .outOfTurn ∧
    draftPlayer roomSolo coachZed [pickSam] playerSal "c" 1 = .teamConflict ∧
    draftPlayer roomPair coachBob [pickTom] playerTom "d" 1 = .alreadyDrafted :=
  ⟨(c8_check_order ⟨"r0", "No Order Room", []⟩ coachZed [] playerSam "a" 0).1 rfl,
   (c8_check_order roomPair coachAlice [pickTom] playerTim "b" 1).2.1 (by decide) (by decide),
   (c8_check_order roomSolo coachZed [pickSam] playerSal "c" 1).2.2.1 (by decide) (by decide)
     (by decide),
   (c8_check_order roomPair coachBob [pickTom] playerTom "d" 1).2.2.2 (by decide) (by decide)
     (by decide) (by decide)⟩

end TripleDraft
